import Mathlib

/-!
Verification of the Painted Geometry drawing surface: the viewport transform,
snapping, erasing, undo/redo, zoom-to-cursor and page management of the main
page component, modelled over exact arithmetic.  The JavaScript numbers of the
source are modelled as rationals for the state machine and as real numbers for
the trigonometric axis snapping; squared Euclidean distances replace the
source's `Math.hypot` comparisons where both sides are nonnegative, which is an
equivalent test that keeps the definitions inside ℚ.
-/

/-- A 2D point, the source's `Point` record.  The coordinate type is a
parameter so that the rational state machine and the real-valued angle
snapping can share the shape of the record. -/
@[ext]
structure Point (α : Type) where
  x : α
  y : α
deriving DecidableEq, Repr

/-- The source's `LineStyle` union: "solid" or "dashed". -/
inductive LineStyle where
  | solid
  | dashed
deriving DecidableEq, Repr

/-- The source's `Shape` tagged union: a straight `Segment` (`start`, `end`,
style, color, width — `end` is renamed `stop` because `end` is a Lean
keyword) or a freehand `BrushPath` (`points`, color, width). -/
inductive Shape where
  | segment (start stop : Point ℚ) (style : LineStyle) (color : String) (width : ℚ)
  | path (points : List (Point ℚ)) (color : String) (width : ℚ)
deriving DecidableEq, Repr

/-- The source's `GeometryPageData` record: a named page with its shapes and
optional persisted view state. -/
structure PageData where
  id : String
  name : String
  shapes : List Shape
  scale : Option ℚ
  offset : Option (Point ℚ)
  createdAt : ℤ
  updatedAt : ℤ
deriving DecidableEq, Repr

/-- The component state of the geometry page: the `useState` fields that the
claims are about (`shapes`, `lastUndoneShape`, `isDirty`, `scale`, `offset`,
`eraserSizePx`, `pages`, `currentPageId`). -/
structure AppState where
  shapes : List Shape
  lastUndoneShape : Option Shape
  isDirty : Bool
  scale : ℚ
  offset : Point ℚ
  eraserSizePx : ℚ
  pages : List PageData
  currentPageId : Option String
deriving DecidableEq, Repr

/-- The `useState` initial values: no shapes, no redo value, clean, scale 1,
offset (0,0), eraser size 18, no pages, no current page id. -/
def initialState : AppState :=
  ⟨[], none, false, 1, ⟨0, 0⟩, 18, [], none⟩

/-- `worldToScreen`: `screen = world * scale + offset` componentwise. -/
def worldToScreen (scale : ℚ) (offset : Point ℚ) (p : Point ℚ) : Point ℚ :=
  ⟨p.x * scale + offset.x, p.y * scale + offset.y⟩

/-- `screenToWorld`: `world = (screen - offset) / scale` componentwise. -/
def screenToWorld (scale : ℚ) (offset : Point ℚ) (p : Point ℚ) : Point ℚ :=
  ⟨(p.x - offset.x) / scale, (p.y - offset.y) / scale⟩

/-- `getAllEndpoints`: for every segment push `start` and `end`; for every
nonempty brush path push its first and last point. -/
def getAllEndpoints (shapes : List Shape) : List (Point ℚ) :=
  shapes.foldr
    (fun s acc =>
      (match s with
       | .segment a b _ _ _ => [a, b]
       | .path pts _ _ =>
         match pts with
         | [] => []
         | p0 :: rest => [p0, (p0 :: rest).getLast (List.cons_ne_nil p0 rest)]) ++ acc)
    []

/-- The squared screen-space distance computed inside `snapToEndpoints`:
`dx*dx + dy*dy` between `worldToScreen world` and `worldToScreen ep`. -/
def d2Screen (scale : ℚ) (offset world ep : Point ℚ) : ℚ :=
  let a := worldToScreen scale offset world
  let b := worldToScreen scale offset ep
  (a.x - b.x) * (a.x - b.x) + (a.y - b.y) * (a.y - b.y)

/-- One iteration of the `snapToEndpoints` loop: keep the candidate endpoint
when `d2 <= tolSq && (!best || d2 < best.d2)` with `tolSq = 12 * 12 = 144`. -/
def snapStep (scale : ℚ) (offset world : Point ℚ)
    (best : Option (Point ℚ × ℚ)) (ep : Point ℚ) : Option (Point ℚ × ℚ) :=
  let d2 := d2Screen scale offset world ep
  let better : Bool :=
    match best with
    | none => true
    | some b => decide (d2 < b.2)
  if decide (d2 ≤ 144) && better then some (ep, d2) else best

/-- `snapToEndpoints`: fold the loop over all endpoints, return the best
endpoint (or `none` when no endpoint is within the 12px screen tolerance). -/
def snapToEndpoints (scale : ℚ) (offset : Point ℚ) (shapes : List Shape)
    (world : Point ℚ) : Option (Point ℚ) :=
  ((getAllEndpoints shapes).foldl (snapStep scale offset world) none).map Prod.fst

/-- Squared Euclidean distance between two points; stands for the square of
the source's `Math.hypot(p.x - q.x, p.y - q.y)`. -/
def sqDist (p q : Point ℚ) : ℚ :=
  (p.x - q.x) ^ 2 + (p.y - q.y) ^ 2

/-- The square of the source's `distancePointToSegment`: project `p` onto the
line through `a`, `b`, clamp the parameter `t` to `[0, 1]`, and return the
squared distance to the clamped closest point (squared distance to `a` when
the segment is degenerate). -/
def distancePointToSegmentSq (p a b : Point ℚ) : ℚ :=
  let abx := b.x - a.x
  let aby := b.y - a.y
  let apx := p.x - a.x
  let apy := p.y - a.y
  let abLen2 := abx * abx + aby * aby
  if abLen2 = 0 then apx * apx + apy * apy
  else
    let t := max 0 (min 1 ((apx * abx + apy * aby) / abLen2))
    let cx := a.x + t * abx
    let cy := a.y + t * aby
    (p.x - cx) * (p.x - cx) + (p.y - cy) * (p.y - cy)

/-- The removal test of `eraseAt` for one shape: a segment is hit when its
distance to the erase point is at most `radiusWorld` (compared in squares); a
brush path with zero points is never hit (`Infinity` in the source), with one
point it is hit when that point is within the radius, and with two or more
points when some consecutive point pair is within the radius. -/
def shapeHit (worldPoint : Point ℚ) (radiusWorld : ℚ) (s : Shape) : Bool :=
  match s with
  | .segment a b _ _ _ =>
    decide (distancePointToSegmentSq worldPoint a b ≤ radiusWorld ^ 2)
  | .path pts _ _ =>
    match pts with
    | [] => false
    | [p0] => decide (sqDist worldPoint p0 ≤ radiusWorld ^ 2)
    | p1 :: p2 :: rest =>
      ((p1 :: p2 :: rest).zip (p2 :: rest)).any fun uv =>
        decide (distancePointToSegmentSq worldPoint uv.1 uv.2 ≤ radiusWorld ^ 2)

/-- `eraseAt`: with `radiusWorld = eraserSizePx / scale`, keep exactly the
shapes that are not hit, set the dirty flag if anything was removed, and
clear the single-slot redo buffer unconditionally. -/
def eraseAt (st : AppState) (worldPoint : Point ℚ) : AppState :=
  let radiusWorld := st.eraserSizePx / st.scale
  let kept := st.shapes.filter fun s => !shapeHit worldPoint radiusWorld s
  let changed := st.shapes.any (shapeHit worldPoint radiusWorld)
  { st with shapes := kept,
            isDirty := if changed then true else st.isDirty,
            lastUndoneShape := none }

/-- One pan step of `handleMouseMove` while panning: add the screen-space
pointer delta to the offset.  The dirty flag is not touched. -/
def panMove (st : AppState) (dx dy : ℚ) : AppState :=
  { st with offset := ⟨st.offset.x + dx, st.offset.y + dy⟩ }

/-- The shape commit performed by `handleMouseUp` in both the brush branch and
the segment branch: append the new shape, mark the document dirty, and clear
the single-slot redo buffer. -/
def commitShape (st : AppState) (sh : Shape) : AppState :=
  { st with shapes := st.shapes ++ [sh], isDirty := true, lastUndoneShape := none }

/-- `undo`: on a non-empty store drop the last shape, put it into the
single-slot redo buffer and mark dirty; on an empty store do nothing. -/
def undo (st : AppState) : AppState :=
  match st.shapes.getLast? with
  | none => st
  | some removed =>
    { st with shapes := st.shapes.dropLast, lastUndoneShape := some removed,
              isDirty := true }

/-- `redo`: when the redo buffer holds a shape append it back, clear the
buffer and mark dirty; with an empty buffer do nothing. -/
def redo (st : AppState) : AppState :=
  match st.lastUndoneShape with
  | none => st
  | some sh =>
    { st with shapes := st.shapes ++ [sh], lastUndoneShape := none,
              isDirty := true }

/-- `clearAll`: empty the store, mark dirty, clear the redo buffer. -/
def clearAll (st : AppState) : AppState :=
  { st with shapes := [], isDirty := true, lastUndoneShape := none }

/-- `handleWheel`: the wheel delta enters only through the positive factor
`zoomFactor = Math.exp(-deltaY * 0.001)`, which is abstracted here as a
rational parameter because `exp` is transcendental.  The new scale is clamped
to `[0.2, 6]`; when it differs from the old scale the offset is recomputed so
that the world point under the mouse stays at the same screen position.  The
dirty flag is not touched. -/
def handleWheel (st : AppState) (mouseScreen : Point ℚ) (zoomFactor : ℚ) : AppState :=
  let oldScale := st.scale
  let newScale := min 6 (max (1/5) (oldScale * zoomFactor))
  if newScale = oldScale then st
  else
    let mouseWorld := screenToWorld oldScale st.offset mouseScreen
    { st with scale := newScale,
              offset := ⟨mouseScreen.x - mouseWorld.x * newScale,
                         mouseScreen.y - mouseWorld.y * newScale⟩ }

/-- The fresh default page created by the load effect and by
`deleteCurrentPage` when the last page is removed: named "Trang 1", empty,
scale 1, offset (0,0). -/
def freshPage (id : String) (now : ℤ) : PageData :=
  ⟨id, "Trang 1", [], some 1, some ⟨0, 0⟩, now, now⟩

/-- The source's `page.scale || 1` (and the load effect's
`if (page.scale) setScale(page.scale)` over the initial scale 1): a missing
or zero stored scale falls back to 1; any other stored value is taken as is,
without clamping. -/
def scaleOrDflt (o : Option ℚ) : ℚ :=
  match o with
  | none => 1
  | some s => if s = 0 then 1 else s

/-- The source's `page.offset || {x: 0, y: 0}`. -/
def offsetOrDflt (o : Option (Point ℚ)) : Point ℚ :=
  match o with
  | none => ⟨0, 0⟩
  | some p => p

/-- `commitSave`: write the working copy (shapes, scale, offset) into the
current page, stamp `updatedAt`, and clear the dirty flag.  Does nothing when
no page is current. -/
def commitSave (st : AppState) (now : ℤ) : AppState :=
  match st.currentPageId with
  | none => st
  | some cid =>
    { st with
        pages := st.pages.map fun p =>
          if p.id == cid then
            { p with shapes := st.shapes, scale := some st.scale,
                     offset := some st.offset, updatedAt := now }
          else p,
        isDirty := false }

/-- `createNewPage`: `name` is the trimmed `prompt` result (`none` for
cancel); an empty name aborts.  Otherwise prepend a fresh empty page, make it
current, reset the working copy and clear the dirty flag. -/
def createNewPage (st : AppState) (name : Option String) (id : String) (now : ℤ) :
    AppState :=
  match name with
  | none => st
  | some n =>
    if n == "" then st
    else
      { st with pages := ⟨id, n, [], some 1, some ⟨0, 0⟩, now, now⟩ :: st.pages,
                currentPageId := some id, shapes := [], scale := 1,
                offset := ⟨0, 0⟩, isDirty := false }

/-- `saveAsNewPage`: clone the working copy into a new page (current shapes,
scale, offset), make it current and clear the dirty flag. -/
def saveAsNewPage (st : AppState) (name : Option String) (id : String) (now : ℤ) :
    AppState :=
  match st.currentPageId with
  | none => st
  | some cid =>
    match st.pages.find? fun p => p.id == cid with
    | none => st
    | some _ =>
      match name with
      | none => st
      | some n =>
        if n == "" then st
        else
          { st with
              pages := ⟨id, n, st.shapes, some st.scale, some st.offset, now, now⟩
                :: st.pages,
              currentPageId := some id, isDirty := false }

/-- `renameCurrentPage`: rename the current page and stamp `updatedAt`;
view state, shapes and the dirty flag are untouched. -/
def renameCurrentPage (st : AppState) (name : Option String) (now : ℤ) : AppState :=
  match st.currentPageId with
  | none => st
  | some cid =>
    match st.pages.find? fun p => p.id == cid with
    | none => st
    | some _ =>
      match name with
      | none => st
      | some n =>
        if n == "" then st
        else
          { st with pages := st.pages.map fun p =>
              if p.id == cid then { p with name := n, updatedAt := now } else p }

/-- `deleteCurrentPage`: after a confirm (`confirmOk`), drop the current page;
if none remain, substitute a fresh page, otherwise activate the first
remaining page, restoring its stored shapes and view state (`page.scale || 1`
without clamping) and clearing the dirty flag. -/
def deleteCurrentPage (st : AppState) (confirmOk : Bool) (freshId : String)
    (now : ℤ) : AppState :=
  match st.currentPageId with
  | none => st
  | some cid =>
    if !confirmOk then st
    else
      match st.pages.filter (fun p => !(p.id == cid)) with
      | [] =>
        { st with pages := [freshPage freshId now], currentPageId := some freshId,
                  shapes := [], scale := 1, offset := ⟨0, 0⟩, isDirty := false }
      | first :: rest =>
        { st with pages := first :: rest, currentPageId := some first.id,
                  shapes := first.shapes, scale := scaleOrDflt first.scale,
                  offset := offsetOrDflt first.offset, isDirty := false }

/-- `changeCurrentPage`: switching to the already-current page or an unknown
id does nothing; otherwise, when dirty and confirmed (`saveOk`), save first,
then activate the target page, restoring its stored shapes and view state
(`page.scale || 1`, unclamped) and clearing the dirty flag. -/
def changeCurrentPage (st : AppState) (id : String) (saveOk : Bool) (now : ℤ) :
    AppState :=
  if st.currentPageId == some id then st
  else
    match st.pages.find? fun p => p.id == id with
    | none => st
    | some page =>
      let st1 := if st.isDirty && st.currentPageId.isSome && saveOk
                 then commitSave st now else st
      { st1 with
          currentPageId := some id,
          shapes := page.shapes,
          scale := scaleOrDflt page.scale,
          offset := offsetOrDflt page.offset,
          isDirty := false }

/-- The mount-time load effect: substitute a fresh page when the stored list
is empty, choose the stored current id when it still exists (else the first
page), and restore that page's shapes and view state over the initial state —
`if (page.scale) setScale(page.scale)` takes any nonzero stored scale without
clamping.  The dirty flag ends false. -/
def loadPages (stored : List PageData) (storedCurrent : Option String)
    (freshId : String) (now : ℤ) : AppState :=
  let loaded := if stored.isEmpty then [freshPage freshId now] else stored
  let first := loaded.headD (freshPage freshId now)
  let chosen :=
    match storedCurrent with
    | some c => if loaded.any (fun p => p.id == c) then c else first.id
    | none => first.id
  let page := (loaded.find? fun p => p.id == chosen).getD first
  { initialState with
      pages := loaded,
      currentPageId := some chosen,
      shapes := page.shapes,
      scale := scaleOrDflt page.scale,
      offset := offsetOrDflt page.offset,
      isDirty := false }

/-- The user-visible operations of the running page, for stating invariants
over arbitrary interaction sequences. -/
inductive Op where
  | wheel (mouseScreen : Point ℚ) (zoomFactor : ℚ)
  | pan (dx dy : ℚ)
  | commit (sh : Shape)
  | undoCmd
  | redoCmd
  | erase (p : Point ℚ)
  | clear
  | save (now : ℤ)
  | newPage (name : Option String) (id : String) (now : ℤ)
  | saveAsNew (name : Option String) (id : String) (now : ℤ)
  | renamePage (name : Option String) (now : ℤ)
  | switchPage (id : String) (saveOk : Bool) (now : ℤ)
  | deletePage (confirmOk : Bool) (freshId : String) (now : ℤ)

/-- Dispatch one operation to its handler. -/
def applyOp (st : AppState) : Op → AppState
  | .wheel ms zf => handleWheel st ms zf
  | .pan dx dy => panMove st dx dy
  | .commit sh => commitShape st sh
  | .undoCmd => undo st
  | .redoCmd => redo st
  | .erase p => eraseAt st p
  | .clear => clearAll st
  | .save now => commitSave st now
  | .newPage name id now => createNewPage st name id now
  | .saveAsNew name id now => saveAsNewPage st name id now
  | .renamePage name now => renameCurrentPage st name now
  | .switchPage id ok now => changeCurrentPage st id ok now
  | .deletePage ok fid now => deleteCurrentPage st ok fid now

/-- The scale invariant: the live scale and every stored page scale lie in
`[0.2, 6]`. -/
def ScaleInv (st : AppState) : Prop :=
  1/5 ≤ st.scale ∧ st.scale ≤ 6 ∧
  ∀ p ∈ st.pages, ∀ s, p.scale = some s → 1/5 ≤ s ∧ s ≤ 6

/-! ### Real-valued definitions for the axis/diagonal snapping

`snapAxisFromStart` uses `Math.atan2`, `Math.cos`, `Math.sin` and degree
arithmetic, so this part of the embedding lives over ℝ. -/

open scoped Classical

/-- JavaScript's `%` on real operands: `x - y * trunc(x / y)`, truncating the
quotient toward zero (floor for a nonnegative quotient, ceiling for a
negative one).  Every use in the snapping code has a nonnegative dividend
and divisor 360. -/
noncomputable def jsMod (x y : ℝ) : ℝ :=
  if 0 ≤ x / y then x - y * ⌊x / y⌋ else x - y * ⌈x / y⌉

/-- `Math.atan2(y, x)` with range `(-π, π]`, matching JavaScript on all
non-NaN inputs (signed zeros aside). -/
noncomputable def atan2 (y x : ℝ) : ℝ :=
  if 0 < x then Real.arctan (y / x)
  else if x < 0 then
    (if 0 ≤ y then Real.arctan (y / x) + Real.pi
     else Real.arctan (y / x) - Real.pi)
  else
    (if 0 < y then Real.pi / 2 else if y < 0 then -(Real.pi / 2) else 0)

/-- The angle `deg` computed in `snapAxisFromStart`:
`atan2(dy, dx) * 180 / π`. -/
noncomputable def degOf (start stop : Point ℝ) : ℝ :=
  atan2 (stop.y - start.y) (stop.x - start.x) * 180 / Real.pi

/-- The `near(a, b, t = 10)` helper of the source:
`|((a - b + 180 + 360) % 360) - 180| <= t`; every call site uses the default
tolerance `t = 10`. -/
def near (a b : ℝ) : Prop :=
  |jsMod (a - b + 180 + 360) 360 - 180| ≤ 10

/-- `Math.hypot(dx, dy) || 1`: the candidate vector's length, or 1 when that
length is zero. -/
noncomputable def lenOf (start stop : Point ℝ) : ℝ :=
  if Real.sqrt ((stop.x - start.x) ^ 2 + (stop.y - start.y) ^ 2) = 0 then 1
  else Real.sqrt ((stop.x - start.x) ^ 2 + (stop.y - start.y) ^ 2)

/-- The diagonal snap target for angle `t` in degrees:
`(start.x + cos(t·π/180)·len, start.y + sin(t·π/180)·len)`. -/
noncomputable def diagPoint (start stop : Point ℝ) (t : ℝ) : Point ℝ :=
  ⟨start.x + Real.cos (t * Real.pi / 180) * lenOf start stop,
   start.y + Real.sin (t * Real.pi / 180) * lenOf start stop⟩

/-- `snapAxisFromStart`: snap to horizontal within 10° of 0°/180°, to
vertical within 10° of ±90°, to a diagonal within 10° of ±45°/±135° (first
match in the source's `[45, 135, -45, -135]` order), otherwise return the
raw end point. -/
noncomputable def snapAxisFromStart (start stop : Point ℝ) : Point ℝ :=
  if near (degOf start stop) 0 ∨ near (degOf start stop) 180 then
    ⟨stop.x, start.y⟩
  else if near (degOf start stop) 90 ∨ near (degOf start stop) (-90) then
    ⟨start.x, stop.y⟩
  else if near (degOf start stop) 45 then diagPoint start stop 45
  else if near (degOf start stop) 135 then diagPoint start stop 135
  else if near (degOf start stop) (-45) then diagPoint start stop (-45)
  else if near (degOf start stop) (-135) then diagPoint start stop (-135)
  else stop

/-! ## Claim C1: the transforms are exact inverses -/

/-- C1: for every world point `p`, every scale in `[0.2, 6.0]` and every
offset, applying `screenToWorld` to the result of `worldToScreen` returns
`p`, where `screen = world * scale + offset` componentwise. -/
theorem screenToWorld_worldToScreen (scale : ℚ) (offset p : Point ℚ)
    (h1 : 1/5 ≤ scale) (h2 : scale ≤ 6) :
    screenToWorld scale offset (worldToScreen scale offset p) = p := by
  have hs : scale ≠ 0 := by
    intro h
    rw [h] at h1
    norm_num at h1
  unfold screenToWorld worldToScreen
  ext <;> field_simp

/-- Witness for C1 at scale 1, offset (2,3), world point (5,7). -/
theorem screenToWorld_worldToScreen_witness :
    (1/5 : ℚ) ≤ 1 ∧ (1 : ℚ) ≤ 6 ∧
    screenToWorld 1 ⟨2, 3⟩ (worldToScreen 1 ⟨2, 3⟩ ⟨5, 7⟩) = ⟨5, 7⟩ :=
  ⟨by norm_num, by norm_num,
    screenToWorld_worldToScreen 1 ⟨2, 3⟩ ⟨5, 7⟩ (by norm_num) (by norm_num)⟩

/-! ## Claim C2: wheel zoom keeps the point under the cursor fixed -/

/-- C2: for every pre-zoom state with scale in `[0.2, 6.0]` and every wheel
event at screen point `s` whose clamped new scale differs from the old scale,
the new offset chosen by `handleWheel` maps the world point that was under
`s` before the zoom back to exactly `s` under the new scale and offset. -/
theorem handleWheel_zoom_to_cursor (st : AppState) (s : Point ℚ) (zf : ℚ)
    (h1 : 1/5 ≤ st.scale) (h2 : st.scale ≤ 6)
    (hne : min 6 (max (1/5) (st.scale * zf)) ≠ st.scale) :
    worldToScreen (handleWheel st s zf).scale (handleWheel st s zf).offset
      (screenToWorld st.scale st.offset s) = s := by
  unfold handleWheel
  rw [if_neg hne]
  unfold worldToScreen screenToWorld
  ext <;> simp

/-- Witness for C2: initial state, zoom factor 2 at screen point (3,4). -/
theorem handleWheel_zoom_to_cursor_witness :
    (1/5 : ℚ) ≤ initialState.scale ∧ initialState.scale ≤ 6 ∧
    min 6 (max (1/5) (initialState.scale * 2)) ≠ initialState.scale ∧
    worldToScreen (handleWheel initialState ⟨3, 4⟩ 2).scale
      (handleWheel initialState ⟨3, 4⟩ 2).offset
      (screenToWorld initialState.scale initialState.offset ⟨3, 4⟩) = ⟨3, 4⟩ :=
  ⟨by norm_num [initialState], by norm_num [initialState],
   by norm_num [initialState],
   handleWheel_zoom_to_cursor initialState ⟨3, 4⟩ 2
     (by norm_num [initialState]) (by norm_num [initialState])
     (by norm_num [initialState])⟩

/-! ## Eraser helper lemmas -/

theorem sum_mul_self_nonneg (x y : ℚ) : 0 ≤ x * x + y * y := by
  nlinarith [mul_self_nonneg x, mul_self_nonneg y]

theorem distancePointToSegmentSq_nonneg (p a b : Point ℚ) :
    0 ≤ distancePointToSegmentSq p a b := by
  simp only [distancePointToSegmentSq]
  split
  · exact sum_mul_self_nonneg _ _
  · exact sum_mul_self_nonneg _ _

theorem sqDist_nonneg (p q : Point ℚ) : 0 ≤ sqDist p q := by
  unfold sqDist
  positivity

/-- Comparing a real square root of a rational with a nonnegative rational is
the same as comparing squares; this justifies replacing the source's
`Math.hypot(...) <= radius` test by a squared comparison. -/
theorem sqrt_cast_le_iff (d r : ℚ) (hr : 0 ≤ r) :
    Real.sqrt (d : ℚ) ≤ (r : ℝ) ↔ d ≤ r ^ 2 := by
  rw [Real.sqrt_le_iff]
  constructor
  · rintro ⟨-, h⟩
    exact_mod_cast h
  · intro h
    exact ⟨by exact_mod_cast hr, by exact_mod_cast h⟩

theorem cast_lt_sqrt_iff (d r : ℚ) (hr : 0 ≤ r) :
    (r : ℝ) < Real.sqrt (d : ℚ) ↔ r ^ 2 < d := by
  rw [Real.lt_sqrt (by exact_mod_cast hr)]
  constructor <;> intro h <;> exact_mod_cast h

/-- The clamped projection used by `distancePointToSegment` really is the
closest point of the segment: the squared distance it returns is a lower
bound for the squared distance from `p` to any point `a + t•(b - a)` with
`t ∈ [0, 1]`. -/
theorem distancePointToSegmentSq_min (p a b : Point ℚ) (t : ℚ)
    (h0 : 0 ≤ t) (h1 : t ≤ 1) :
    distancePointToSegmentSq p a b ≤
      sqDist p ⟨a.x + t * (b.x - a.x), a.y + t * (b.y - a.y)⟩ := by
  simp only [distancePointToSegmentSq, sqDist]
  by_cases h : (b.x - a.x) * (b.x - a.x) + (b.y - a.y) * (b.y - a.y) = 0
  · rw [if_pos h]
    have hx : b.x - a.x = 0 := by nlinarith [mul_self_nonneg (b.x - a.x), mul_self_nonneg (b.y - a.y)]
    have hy : b.y - a.y = 0 := by nlinarith [mul_self_nonneg (b.x - a.x), mul_self_nonneg (b.y - a.y)]
    rw [hx, hy]
    exact le_of_eq (by ring)
  · rw [if_neg h]
    have hab2 : 0 < (b.x - a.x) * (b.x - a.x) + (b.y - a.y) * (b.y - a.y) :=
      lt_of_le_of_ne (sum_mul_self_nonneg _ _) (Ne.symm h)
    set A := b.x - a.x with hA
    set B := b.y - a.y with hB
    set t0 := ((p.x - a.x) * A + (p.y - a.y) * B) / (A * A + B * B) with ht0
    have hdot : t0 * (A * A + B * B) = (p.x - a.x) * A + (p.y - a.y) * B := by
      rw [ht0]
      field_simp
    rcases le_or_lt t0 0 with hc | hc
    · have hmin : min 1 t0 = t0 := min_eq_right (hc.trans zero_le_one)
      have hmax : max 0 t0 = 0 := max_eq_left hc
      rw [hmin, hmax]
      have hdotneg : (p.x - a.x) * A + (p.y - a.y) * B ≤ 0 := by
        rw [← hdot]
        exact mul_nonpos_of_nonpos_of_nonneg hc hab2.le
      nlinarith [mul_nonneg (mul_nonneg h0 h0) hab2.le,
                 mul_nonpos_of_nonneg_of_nonpos h0 hdotneg]
    · rcases le_or_lt 1 t0 with hc1 | hc1
      · have hmin : min 1 t0 = 1 := min_eq_left hc1
        have hmax : max 0 (1 : ℚ) = 1 := max_eq_right zero_le_one
        rw [hmin, hmax]
        have hdotge : A * A + B * B ≤ (p.x - a.x) * A + (p.y - a.y) * B := by
          rw [← hdot]
          nlinarith [hab2]
        nlinarith [mul_nonneg (mul_nonneg (sub_nonneg.2 h1) (sub_nonneg.2 h1)) hab2.le,
                   mul_nonneg (sub_nonneg.2 h1) (sub_nonneg.2 hdotge)]
      · have hmin : min 1 t0 = t0 := min_eq_right hc1.le
        have hmax : max 0 t0 = t0 := max_eq_right hc.le
        rw [hmin, hmax]
        have hzero : (p.x - a.x) * A + (p.y - a.y) * B - t0 * (A * A + B * B) = 0 := by
          rw [← hdot]
          ring
        have key : (p.x - (a.x + t0 * A)) * (p.x - (a.x + t0 * A)) +
            (p.y - (a.y + t0 * B)) * (p.y - (a.y + t0 * B))
            = (p.x - (a.x + t * A)) ^ 2 + (p.y - (a.y + t * B)) ^ 2
              - (A * A + B * B) * (t - t0) ^ 2
              + 2 * (t - t0) *
                ((p.x - a.x) * A + (p.y - a.y) * B - t0 * (A * A + B * B)) := by
          ring
        rw [key, hzero, mul_zero, add_zero]
        have : 0 ≤ (A * A + B * B) * (t - t0) ^ 2 :=
          mul_nonneg hab2.le (sq_nonneg _)
        linarith

/-- Membership in the shape list after an erase call: a shape survives iff it
was present and not hit. -/
theorem mem_eraseAt_shapes (st : AppState) (wp : Point ℚ) (s : Shape) :
    s ∈ (eraseAt st wp).shapes ↔
      s ∈ st.shapes ∧ shapeHit wp (st.eraserSizePx / st.scale) s = false := by
  show s ∈ st.shapes.filter _ ↔ _
  rw [List.mem_filter]
  simp [Bool.not_eq_true']

/-! ## Claim C3: segment erasure -/

/-- C3: `eraseAt` uses the world radius `eraserSizePx / scale` and removes a
segment exactly when the Euclidean distance from the erase point to the
finite segment (the clamped closest-point formula) is at most that radius; a
segment strictly farther away survives unchanged.  The second conjunct checks
that the clamped formula really is the distance to the finite segment: it is
minimal among all points `a + t•(b-a)`, `t ∈ [0,1]`. -/
theorem eraseAt_segment_spec (st : AppState) (wp a b : Point ℚ)
    (sty : LineStyle) (c : String) (w : ℚ)
    (hscale : 0 < st.scale) (hsize : 0 ≤ st.eraserSizePx) :
    (Shape.segment a b sty c w ∈ (eraseAt st wp).shapes ↔
      Shape.segment a b sty c w ∈ st.shapes ∧
        ((st.eraserSizePx / st.scale : ℚ) : ℝ) <
          Real.sqrt ((distancePointToSegmentSq wp a b : ℚ) : ℝ)) ∧
    (∀ t : ℚ, 0 ≤ t → t ≤ 1 →
      distancePointToSegmentSq wp a b ≤
        sqDist wp ⟨a.x + t * (b.x - a.x), a.y + t * (b.y - a.y)⟩) := by
  have hr : 0 ≤ st.eraserSizePx / st.scale := div_nonneg hsize hscale.le
  constructor
  · rw [mem_eraseAt_shapes]
    have hiff : shapeHit wp (st.eraserSizePx / st.scale) (Shape.segment a b sty c w) = false
        ↔ ((st.eraserSizePx / st.scale : ℚ) : ℝ) <
            Real.sqrt ((distancePointToSegmentSq wp a b : ℚ) : ℝ) := by
      simp only [shapeHit, decide_eq_false_iff_not, not_le]
      rw [cast_lt_sqrt_iff _ _ hr]
    rw [hiff]
  · exact fun t h0 h1 => distancePointToSegmentSq_min wp a b t h0 h1

/-- Witness for C3: a segment from (0,0) to (100,0) is removed by an erase at
(50,0) with eraser size 10 at scale 1. -/
theorem eraseAt_segment_spec_witness :
    Shape.segment ⟨0, 0⟩ ⟨100, 0⟩ .solid "c" 2 ∉
      (eraseAt ⟨[Shape.segment ⟨0, 0⟩ ⟨100, 0⟩ .solid "c" 2], none, false, 1,
        ⟨0, 0⟩, 10, [], none⟩ ⟨50, 0⟩).shapes := by
  intro hmem
  have h := (eraseAt_segment_spec
    ⟨[Shape.segment ⟨0, 0⟩ ⟨100, 0⟩ .solid "c" 2], none, false, 1,
      ⟨0, 0⟩, 10, [], none⟩ ⟨50, 0⟩ ⟨0, 0⟩ ⟨100, 0⟩ .solid "c" 2
    (by norm_num) (by norm_num)).1
  have h2 := (h.mp hmem).2
  have hd : distancePointToSegmentSq ⟨50, 0⟩ ⟨0, 0⟩ ⟨100, 0⟩ = (0 : ℚ) := by
    norm_num [distancePointToSegmentSq]
  rw [hd] at h2
  simp only [Rat.cast_zero, Real.sqrt_zero] at h2
  norm_num at h2

/-! ## Claim C4: brush path erasure is all-or-nothing -/

/-- C4: an empty brush path always survives an erase; a one-point path is
removed exactly when its point is within the eraser radius; a path with at
least two points is removed exactly when some consecutive point-pair
sub-segment passes within the radius; and erasing never produces new or
partial shapes — every surviving shape was already in the store. -/
theorem eraseAt_path_spec (st : AppState) (wp : Point ℚ)
    (pts : List (Point ℚ)) (c : String) (w : ℚ)
    (hscale : 0 < st.scale) (hsize : 0 ≤ st.eraserSizePx) :
    (pts = [] → Shape.path pts c w ∈ st.shapes →
      Shape.path pts c w ∈ (eraseAt st wp).shapes) ∧
    (∀ p0, pts = [p0] → Shape.path pts c w ∈ st.shapes →
      (Shape.path pts c w ∉ (eraseAt st wp).shapes ↔
        Real.sqrt ((sqDist wp p0 : ℚ) : ℝ) ≤ ((st.eraserSizePx / st.scale : ℚ) : ℝ))) ∧
    (2 ≤ pts.length → Shape.path pts c w ∈ st.shapes →
      (Shape.path pts c w ∉ (eraseAt st wp).shapes ↔
        ∃ u v, (u, v) ∈ pts.zip pts.tail ∧
          Real.sqrt ((distancePointToSegmentSq wp u v : ℚ) : ℝ) ≤
            ((st.eraserSizePx / st.scale : ℚ) : ℝ))) ∧
    (∀ s ∈ (eraseAt st wp).shapes, s ∈ st.shapes) := by
  have hr : 0 ≤ st.eraserSizePx / st.scale := div_nonneg hsize hscale.le
  refine ⟨?_, ?_, ?_, ?_⟩
  · intro hpts hmem
    subst hpts
    rw [mem_eraseAt_shapes]
    exact ⟨hmem, rfl⟩
  · intro p0 hpts hmem
    subst hpts
    rw [not_congr (mem_eraseAt_shapes st wp (Shape.path [p0] c w))]
    simp only [hmem, true_and, shapeHit, Bool.not_eq_false, decide_eq_true_eq,
      not_false_eq_true]
    exact (sqrt_cast_le_iff _ _ hr).symm
  · intro hlen hmem
    obtain ⟨p1, pts1, rfl⟩ : ∃ p1 pts1, pts = p1 :: pts1 := by
      cases pts with
      | nil => simp at hlen
      | cons a l => exact ⟨a, l, rfl⟩
    obtain ⟨p2, rest, rfl⟩ : ∃ p2 rest, pts1 = p2 :: rest := by
      cases pts1 with
      | nil => simp at hlen
      | cons a l => exact ⟨a, l, rfl⟩
    rw [not_congr (mem_eraseAt_shapes st wp (Shape.path (p1 :: p2 :: rest) c w))]
    simp only [hmem, true_and, shapeHit, Bool.not_eq_false, List.any_eq_true,
      decide_eq_true_eq]
    constructor
    · rintro ⟨⟨u, v⟩, huv, hle⟩
      exact ⟨u, v, by simpa using huv, (sqrt_cast_le_iff _ _ hr).mpr hle⟩
    · rintro ⟨u, v, huv, hle⟩
      exact ⟨(u, v), by simpa using huv, (sqrt_cast_le_iff _ _ hr).mp hle⟩
  · intro s hs
    exact ((mem_eraseAt_shapes st wp s).mp hs).1

/-- Witness for C4: in a 3-point path only the middle-to-last sub-segment
passes within radius 2 of the erase point (15,0); the entire path is
removed. -/
theorem eraseAt_path_spec_witness :
    Shape.path [⟨0, 0⟩, ⟨10, 0⟩, ⟨20, 0⟩] "c" 1 ∉
      (eraseAt ⟨[Shape.path [⟨0, 0⟩, ⟨10, 0⟩, ⟨20, 0⟩] "c" 1], none, false, 1,
        ⟨0, 0⟩, 2, [], none⟩ ⟨15, 0⟩).shapes := by
  have h := (eraseAt_path_spec
    ⟨[Shape.path [⟨0, 0⟩, ⟨10, 0⟩, ⟨20, 0⟩] "c" 1], none, false, 1,
      ⟨0, 0⟩, 2, [], none⟩ ⟨15, 0⟩ [⟨0, 0⟩, ⟨10, 0⟩, ⟨20, 0⟩] "c" 1
    (by norm_num) (by norm_num)).2.2.1
  refine (h (by norm_num) (by simp)).mpr ?_
  refine ⟨⟨10, 0⟩, ⟨20, 0⟩, by simp, ?_⟩
  have hd : distancePointToSegmentSq ⟨15, 0⟩ ⟨10, 0⟩ ⟨20, 0⟩ = (0 : ℚ) := by
    norm_num [distancePointToSegmentSq]
  rw [hd]
  simp only [Rat.cast_zero, Real.sqrt_zero]
  norm_num

/-! ## Claim C10: an erase that hits nothing still clears the redo buffer -/

/-- C10: an erase call at a world point where no shape is within the eraser
radius leaves the shape list and the dirty flag unchanged, but the
single-slot redo buffer is cleared unconditionally — an erase gesture that
touches nothing silently discards a pending redo value. -/
theorem eraseAt_miss_frame (st : AppState) (wp : Point ℚ) :
    (eraseAt st wp).lastUndoneShape = none ∧
    ((∀ s ∈ st.shapes, shapeHit wp (st.eraserSizePx / st.scale) s = false) →
      (eraseAt st wp).shapes = st.shapes ∧ (eraseAt st wp).isDirty = st.isDirty) := by
  refine ⟨rfl, fun h => ⟨?_, ?_⟩⟩
  · show st.shapes.filter _ = st.shapes
    rw [List.filter_eq_self]
    intro a ha
    simp [h a ha]
  · have hany : st.shapes.any (shapeHit wp (st.eraserSizePx / st.scale)) = false := by
      rw [List.any_eq_false]
      intro x hx
      simp [h x hx]
    show (if st.shapes.any (shapeHit wp (st.eraserSizePx / st.scale)) = true
          then true else st.isDirty) = st.isDirty
    rw [hany]
    simp

/-- Witness for C10: erasing far away from the only shape (a pending redo
value is present and gets dropped; shapes and dirty flag survive). -/
theorem eraseAt_miss_frame_witness :
    (eraseAt ⟨[Shape.segment ⟨0, 0⟩ ⟨1, 0⟩ .solid "c" 2],
        some (Shape.segment ⟨5, 5⟩ ⟨6, 6⟩ .solid "c" 2), false, 1,
        ⟨0, 0⟩, 18, [], none⟩ ⟨1000, 1000⟩).lastUndoneShape = none ∧
    (eraseAt ⟨[Shape.segment ⟨0, 0⟩ ⟨1, 0⟩ .solid "c" 2],
        some (Shape.segment ⟨5, 5⟩ ⟨6, 6⟩ .solid "c" 2), false, 1,
        ⟨0, 0⟩, 18, [], none⟩ ⟨1000, 1000⟩).shapes
      = [Shape.segment ⟨0, 0⟩ ⟨1, 0⟩ .solid "c" 2] ∧
    (eraseAt ⟨[Shape.segment ⟨0, 0⟩ ⟨1, 0⟩ .solid "c" 2],
        some (Shape.segment ⟨5, 5⟩ ⟨6, 6⟩ .solid "c" 2), false, 1,
        ⟨0, 0⟩, 18, [], none⟩ ⟨1000, 1000⟩).isDirty = false := by
  have h := eraseAt_miss_frame
    ⟨[Shape.segment ⟨0, 0⟩ ⟨1, 0⟩ .solid "c" 2],
      some (Shape.segment ⟨5, 5⟩ ⟨6, 6⟩ .solid "c" 2), false, 1,
      ⟨0, 0⟩, 18, [], none⟩ ⟨1000, 1000⟩
  have hmiss : ∀ s ∈ [Shape.segment ⟨0, 0⟩ ⟨1, 0⟩ (.solid) "c" (2 : ℚ)],
      shapeHit ⟨1000, 1000⟩ ((18 : ℚ) / 1) s = false := by
    intro s hs
    rw [List.mem_singleton] at hs
    subst hs
    simp only [shapeHit, decide_eq_false_iff_not, not_le]
    norm_num [distancePointToSegmentSq]
  obtain ⟨h1, h2⟩ := h
  exact ⟨h1, (h2 hmiss).1, (h2 hmiss).2⟩

/-! ## Claim C7: single-slot undo/redo -/

/-- C7: undo on a non-empty store removes exactly the last shape, stores it
in the single-slot redo buffer and marks dirty; redo with a buffered shape
appends it and clears the buffer, marking dirty; redo with an empty buffer
is a no-op; committing a shape clears any pending redo value; and the
`[A, B]` scenario of the specification follows: undo yields `[A]` with `B`
buffered, redo restores `[A, B]` with an empty buffer, and committing `C`
after an undo makes a subsequent redo a no-op. -/
theorem undo_redo_spec :
    (∀ (st : AppState) (init : List Shape) (last : Shape),
      st.shapes = init ++ [last] →
      undo st = { st with shapes := init, lastUndoneShape := some last,
                          isDirty := true }) ∧
    (∀ (st : AppState) (sh : Shape), st.lastUndoneShape = some sh →
      redo st = { st with shapes := st.shapes ++ [sh], lastUndoneShape := none,
                          isDirty := true }) ∧
    (∀ st : AppState, st.lastUndoneShape = none → redo st = st) ∧
    (∀ (st : AppState) (sh : Shape),
      commitShape st sh = { st with shapes := st.shapes ++ [sh],
                                    lastUndoneShape := none, isDirty := true }) ∧
    (∀ (st : AppState) (A B : Shape), st.shapes = [A, B] →
      (undo st).shapes = [A] ∧ (undo st).lastUndoneShape = some B ∧
      (redo (undo st)).shapes = [A, B] ∧
      (redo (undo st)).lastUndoneShape = none ∧
      ∀ C : Shape, redo (commitShape (undo st) C) = commitShape (undo st) C) := by
  have hundo : ∀ (st : AppState) (init : List Shape) (last : Shape),
      st.shapes = init ++ [last] →
      undo st = { st with shapes := init, lastUndoneShape := some last,
                          isDirty := true } := by
    intro st init last h
    unfold undo
    rw [h, List.getLast?_concat]
    simp [h, List.dropLast_concat]
  have hredo : ∀ (st : AppState) (sh : Shape), st.lastUndoneShape = some sh →
      redo st = { st with shapes := st.shapes ++ [sh], lastUndoneShape := none,
                          isDirty := true } := by
    intro st sh h
    unfold redo
    rw [h]
  have hredoNone : ∀ st : AppState, st.lastUndoneShape = none → redo st = st := by
    intro st h
    unfold redo
    rw [h]
  refine ⟨hundo, hredo, hredoNone, fun st sh => rfl, ?_⟩
  intro st A B h
  have h1 := hundo st [A] B (by rw [h]; rfl)
  rw [h1]
  refine ⟨rfl, rfl, ?_, ?_, ?_⟩
  · rw [hredo _ B rfl]
    rfl
  · rw [hredo _ B rfl]
  · intro C
    exact hredoNone _ rfl

/-- Witness for C7: the concrete `[A, B]` round trip with two segments and a
committed third shape. -/
theorem undo_redo_spec_witness :
    (undo ⟨[Shape.segment ⟨0, 0⟩ ⟨1, 0⟩ .solid "a" 1,
            Shape.segment ⟨2, 0⟩ ⟨3, 0⟩ .solid "b" 1], none, false, 1,
           ⟨0, 0⟩, 18, [], none⟩).shapes
      = [Shape.segment ⟨0, 0⟩ ⟨1, 0⟩ .solid "a" 1] ∧
    (undo ⟨[Shape.segment ⟨0, 0⟩ ⟨1, 0⟩ .solid "a" 1,
            Shape.segment ⟨2, 0⟩ ⟨3, 0⟩ .solid "b" 1], none, false, 1,
           ⟨0, 0⟩, 18, [], none⟩).lastUndoneShape
      = some (Shape.segment ⟨2, 0⟩ ⟨3, 0⟩ .solid "b" 1) ∧
    (redo (undo ⟨[Shape.segment ⟨0, 0⟩ ⟨1, 0⟩ .solid "a" 1,
            Shape.segment ⟨2, 0⟩ ⟨3, 0⟩ .solid "b" 1], none, false, 1,
           ⟨0, 0⟩, 18, [], none⟩)).shapes
      = [Shape.segment ⟨0, 0⟩ ⟨1, 0⟩ .solid "a" 1,
         Shape.segment ⟨2, 0⟩ ⟨3, 0⟩ .solid "b" 1] ∧
    ∀ C : Shape,
      redo (commitShape (undo ⟨[Shape.segment ⟨0, 0⟩ ⟨1, 0⟩ .solid "a" 1,
            Shape.segment ⟨2, 0⟩ ⟨3, 0⟩ .solid "b" 1], none, false, 1,
           ⟨0, 0⟩, 18, [], none⟩) C)
        = commitShape (undo ⟨[Shape.segment ⟨0, 0⟩ ⟨1, 0⟩ .solid "a" 1,
            Shape.segment ⟨2, 0⟩ ⟨3, 0⟩ .solid "b" 1], none, false, 1,
           ⟨0, 0⟩, 18, [], none⟩) C := by
  have h := undo_redo_spec.2.2.2.2
    ⟨[Shape.segment ⟨0, 0⟩ ⟨1, 0⟩ .solid "a" 1,
      Shape.segment ⟨2, 0⟩ ⟨3, 0⟩ .solid "b" 1], none, false, 1,
     ⟨0, 0⟩, 18, [], none⟩
    (Shape.segment ⟨0, 0⟩ ⟨1, 0⟩ .solid "a" 1)
    (Shape.segment ⟨2, 0⟩ ⟨3, 0⟩ .solid "b" 1) rfl
  exact ⟨h.1, h.2.1, h.2.2.1, h.2.2.2.2⟩

/-! ## Claim C9: which mutations toggle the dirty flag -/

/-- C9 counterexample: a wheel zoom is a view mutation (it changes the
scale), yet the dirty flag stays `false`; likewise a pan changes the offset
without touching the dirty flag.  This contradicts the claim that any view
mutation marks the document dirty. -/
theorem dirty_view_counterexample :
    (handleWheel initialState ⟨0, 0⟩ 2).scale ≠ initialState.scale ∧
    (handleWheel initialState ⟨0, 0⟩ 2).isDirty = false ∧
    (panMove initialState 5 7).offset ≠ initialState.offset ∧
    (panMove initialState 5 7).isDirty = false := by
  have hne : min 6 (max (1/5 : ℚ) (initialState.scale * 2)) ≠ initialState.scale := by
    norm_num [initialState, min_def, max_def]
  refine ⟨?_, ?_, ?_, ?_⟩
  · unfold handleWheel
    rw [if_neg hne]
    exact hne
  · unfold handleWheel
    rw [if_neg hne]
    rfl
  · intro h
    have hx := congrArg Point.x h
    norm_num [panMove, initialState] at hx
  · rfl

/-- C9 amended: the dirty flag becomes true after any shape-list mutation
(commit, effective undo, effective redo, clear-all, an erase that removes
something); pan and zoom leave it unchanged; and it becomes false on save
(with a current page) and on page activation (switch or load). -/
theorem dirty_flag_spec :
    (∀ (st : AppState) (sh : Shape), (commitShape st sh).isDirty = true) ∧
    (∀ st : AppState, st.shapes ≠ [] → (undo st).isDirty = true) ∧
    (∀ (st : AppState) (sh : Shape), st.lastUndoneShape = some sh →
      (redo st).isDirty = true) ∧
    (∀ st : AppState, (clearAll st).isDirty = true) ∧
    (∀ (st : AppState) (wp : Point ℚ),
      st.shapes.any (shapeHit wp (st.eraserSizePx / st.scale)) = true →
      (eraseAt st wp).isDirty = true) ∧
    (∀ (st : AppState) (ms : Point ℚ) (zf : ℚ),
      (handleWheel st ms zf).isDirty = st.isDirty) ∧
    (∀ (st : AppState) (dx dy : ℚ), (panMove st dx dy).isDirty = st.isDirty) ∧
    (∀ (st : AppState) (now : ℤ), st.currentPageId.isSome →
      (commitSave st now).isDirty = false) ∧
    (∀ (st : AppState) (id : String) (ok : Bool) (now : ℤ) (page : PageData),
      (st.currentPageId == some id) = false →
      st.pages.find? (fun p => p.id == id) = some page →
      (changeCurrentPage st id ok now).isDirty = false) ∧
    (∀ (stored : List PageData) (cur : Option String) (fid : String) (now : ℤ),
      (loadPages stored cur fid now).isDirty = false) := by
  refine ⟨fun st sh => rfl, ?_, ?_, fun st => rfl, ?_, ?_, fun st dx dy => rfl,
    ?_, ?_, fun stored cur fid now => rfl⟩
  · intro st h
    rcases List.eq_nil_or_concat st.shapes with h0 | ⟨init, last, h0⟩
    · exact absurd h0 h
    · unfold undo
      rw [h0, List.concat_eq_append, List.getLast?_concat]
  · intro st sh h
    unfold redo
    rw [h]
  · intro st wp h
    show (if st.shapes.any (shapeHit wp (st.eraserSizePx / st.scale)) = true
          then true else st.isDirty) = true
    rw [if_pos h]
  · intro st ms zf
    unfold handleWheel
    by_cases h : min 6 (max (1/5) (st.scale * zf)) = st.scale
    · rw [if_pos h]
    · rw [if_neg h]
  · intro st now h
    rw [Option.isSome_iff_exists] at h
    obtain ⟨cid, hcid⟩ := h
    unfold commitSave
    rw [hcid]
  · intro st id ok now page hne hfind
    unfold changeCurrentPage
    rw [if_neg (by simp [hne]), hfind]

/-- Witness for C9 amended: an undo on a one-shape store marks dirty; a save
with a current page clears it. -/
theorem dirty_flag_spec_witness :
    (undo ⟨[Shape.segment ⟨0, 0⟩ ⟨1, 0⟩ .solid "a" 1], none, false, 1,
      ⟨0, 0⟩, 18, [], none⟩).isDirty = true ∧
    (commitSave ⟨[], none, true, 1, ⟨0, 0⟩, 18,
      [⟨"p", "n", [], some 1, some ⟨0, 0⟩, 0, 0⟩], some "p"⟩ 5).isDirty = false :=
  ⟨dirty_flag_spec.2.1 _ (List.cons_ne_nil _ _),
   dirty_flag_spec.2.2.2.2.2.2.2.1 _ 5 rfl⟩

/-! ## Claim C8: the scale clamp -/

/-- A stored scale restored through `page.scale || 1` stays in range provided
the stored value was in range (a missing or zero value falls back to 1). -/
theorem scaleOrDflt_range (o : Option ℚ)
    (h : ∀ s, o = some s → 1/5 ≤ s ∧ s ≤ 6) :
    1/5 ≤ scaleOrDflt o ∧ scaleOrDflt o ≤ 6 := by
  rcases o with _ | s
  · unfold scaleOrDflt
    norm_num
  · have hs := h s rfl
    have hs0 : ¬ s = 0 := by
      intro h0
      rw [h0] at hs
      exact absurd hs.1 (by norm_num)
    show (1/5 ≤ if s = 0 then (1 : ℚ) else s) ∧ (if s = 0 then (1 : ℚ) else s) ≤ 6
    rw [if_neg hs0]
    exact hs

/-- Saving writes the current (in-range) scale into the current page, so the
scale invariant survives a save. -/
theorem commitSave_scaleInv (st : AppState) (now : ℤ) (h : ScaleInv st) :
    ScaleInv (commitSave st now) := by
  obtain ⟨h1, h2, hp⟩ := h
  unfold commitSave
  split
  · exact ⟨h1, h2, hp⟩
  · rename_i cid heq
    refine ⟨h1, h2, ?_⟩
    intro p hpmem s hs
    rw [List.mem_map] at hpmem
    obtain ⟨q, hq, rfl⟩ := hpmem
    by_cases hid : (q.id == cid) = true
    · rw [if_pos hid] at hs
      have h3 : some st.scale = some s := hs
      obtain rfl : st.scale = s := Option.some.inj h3
      exact ⟨h1, h2⟩
    · rw [if_neg hid] at hs
      exact hp q hq s hs

/-- Every user operation preserves the scale invariant. -/
theorem applyOp_scaleInv (st : AppState) (op : Op) (h : ScaleInv st) :
    ScaleInv (applyOp st op) := by
  have hclamp : ∀ x : ℚ, 1/5 ≤ min 6 (max (1/5) x) ∧ min 6 (max (1/5) x) ≤ 6 :=
    fun x => ⟨le_min (by norm_num) (le_max_left _ _), min_le_left _ _⟩
  obtain ⟨h1, h2, hp⟩ := h
  cases op with
  | wheel ms zf =>
    show ScaleInv (handleWheel st ms zf)
    unfold handleWheel
    by_cases hif : min 6 (max (1/5) (st.scale * zf)) = st.scale
    · rw [if_pos hif]
      exact ⟨h1, h2, hp⟩
    · rw [if_neg hif]
      exact ⟨(hclamp _).1, (hclamp _).2, hp⟩
  | pan dx dy => exact ⟨h1, h2, hp⟩
  | commit sh => exact ⟨h1, h2, hp⟩
  | undoCmd =>
    show ScaleInv (undo st)
    unfold undo
    split <;> exact ⟨h1, h2, hp⟩
  | redoCmd =>
    show ScaleInv (redo st)
    unfold redo
    split <;> exact ⟨h1, h2, hp⟩
  | erase p => exact ⟨h1, h2, hp⟩
  | clear => exact ⟨h1, h2, hp⟩
  | save now => exact commitSave_scaleInv st now ⟨h1, h2, hp⟩
  | newPage name id now =>
    show ScaleInv (createNewPage st name id now)
    unfold createNewPage
    split
    · exact ⟨h1, h2, hp⟩
    · rename_i n
      by_cases hn : (n == "") = true
      · rw [if_pos hn]
        exact ⟨h1, h2, hp⟩
      · rw [if_neg hn]
        refine ⟨by norm_num, by norm_num, ?_⟩
        intro p hpmem s hs
        rcases List.mem_cons.mp hpmem with rfl | hmem
        · have h3 : some (1 : ℚ) = some s := hs
          obtain rfl : (1 : ℚ) = s := Option.some.inj h3
          norm_num
        · exact hp p hmem s hs
  | saveAsNew name id now =>
    show ScaleInv (saveAsNewPage st name id now)
    unfold saveAsNewPage
    split
    · exact ⟨h1, h2, hp⟩
    · rename_i cid heq
      split
      · exact ⟨h1, h2, hp⟩
      · rename_i base hbase
        split
        · exact ⟨h1, h2, hp⟩
        · rename_i n
          by_cases hn : (n == "") = true
          · rw [if_pos hn]
            exact ⟨h1, h2, hp⟩
          · rw [if_neg hn]
            refine ⟨h1, h2, ?_⟩
            intro p hpmem s hs
            rcases List.mem_cons.mp hpmem with rfl | hmem
            · have h3 : some st.scale = some s := hs
              obtain rfl : st.scale = s := Option.some.inj h3
              exact ⟨h1, h2⟩
            · exact hp p hmem s hs
  | renamePage name now =>
    show ScaleInv (renameCurrentPage st name now)
    unfold renameCurrentPage
    split
    · exact ⟨h1, h2, hp⟩
    · rename_i cid heq
      split
      · exact ⟨h1, h2, hp⟩
      · rename_i pg hpg
        split
        · exact ⟨h1, h2, hp⟩
        · rename_i n
          by_cases hn : (n == "") = true
          · rw [if_pos hn]
            exact ⟨h1, h2, hp⟩
          · rw [if_neg hn]
            refine ⟨h1, h2, ?_⟩
            intro p hpmem s hs
            rw [List.mem_map] at hpmem
            obtain ⟨q, hq, rfl⟩ := hpmem
            by_cases hid : (q.id == cid) = true
            · rw [if_pos hid] at hs
              have h3 : q.scale = some s := hs
              exact hp q hq s h3
            · rw [if_neg hid] at hs
              exact hp q hq s hs
  | switchPage id ok now =>
    show ScaleInv (changeCurrentPage st id ok now)
    unfold changeCurrentPage
    by_cases hcur : (st.currentPageId == some id) = true
    · rw [if_pos hcur]
      exact ⟨h1, h2, hp⟩
    · rw [if_neg hcur]
      split
      · exact ⟨h1, h2, hp⟩
      · rename_i page hpagefind
        have hpage : page ∈ st.pages := List.mem_of_find?_eq_some hpagefind
        have hsc := scaleOrDflt_range page.scale (fun s hs => hp page hpage s hs)
        by_cases hdirty : (st.isDirty && st.currentPageId.isSome && ok) = true
        · rw [if_pos hdirty]
          exact ⟨hsc.1, hsc.2, (commitSave_scaleInv st now ⟨h1, h2, hp⟩).2.2⟩
        · rw [if_neg hdirty]
          exact ⟨hsc.1, hsc.2, hp⟩
  | deletePage ok fid now =>
    show ScaleInv (deleteCurrentPage st ok fid now)
    unfold deleteCurrentPage
    split
    · exact ⟨h1, h2, hp⟩
    · rename_i cid heq
      by_cases hok : (!ok) = true
      · rw [if_pos hok]
        exact ⟨h1, h2, hp⟩
      · rw [if_neg hok]
        split
        · rename_i hfilter
          refine ⟨by norm_num, by norm_num, ?_⟩
          intro p hpmem s hs
          rw [List.mem_singleton] at hpmem
          subst hpmem
          have h3 : some (1 : ℚ) = some s := hs
          obtain rfl : (1 : ℚ) = s := Option.some.inj h3
          norm_num
        · rename_i first rest hfilter
          have hfirst : first ∈ st.pages := by
            have hm : first ∈ st.pages.filter (fun p => !(p.id == cid)) := by
              rw [hfilter]
              exact List.mem_cons_self _ _
            exact List.mem_of_mem_filter hm
          have hsc := scaleOrDflt_range first.scale (fun s hs => hp first hfirst s hs)
          refine ⟨hsc.1, hsc.2, ?_⟩
          intro p hpmem s hs
          have hm : p ∈ st.pages.filter (fun p => !(p.id == cid)) := by
            rw [hfilter]
            exact hpmem
          exact hp p (List.mem_of_mem_filter hm) s hs

/-- Loading establishes the scale invariant whenever every stored page scale
is in `[0.2, 6]` (in particular for storage produced by the app itself). -/
theorem loadPages_scaleInv (stored : List PageData) (cur : Option String)
    (fid : String) (now : ℤ)
    (hstored : ∀ p ∈ stored, ∀ s, p.scale = some s → 1/5 ≤ s ∧ s ≤ 6) :
    ScaleInv (loadPages stored cur fid now) := by
  have hload : ∀ p ∈ (if stored.isEmpty then [freshPage fid now] else stored),
      ∀ s, p.scale = some s → 1/5 ≤ s ∧ s ≤ 6 := by
    intro p hpmem s hs
    by_cases he : stored.isEmpty = true
    · rw [if_pos he] at hpmem
      rw [List.mem_singleton] at hpmem
      subst hpmem
      have h3 : some (1 : ℚ) = some s := hs
      obtain rfl : (1 : ℚ) = s := Option.some.inj h3
      norm_num
    · rw [if_neg he] at hpmem
      exact hstored p hpmem s hs
  have hne : (if stored.isEmpty then [freshPage fid now] else stored) ≠ [] := by
    by_cases he : stored.isEmpty = true
    · rw [if_pos he]
      exact List.cons_ne_nil _ _
    · rw [if_neg he]
      intro h0
      rw [h0] at he
      exact he rfl
  simp only [loadPages]
  set L := (if stored.isEmpty then [freshPage fid now] else stored) with hL
  have hfirstMem : L.headD (freshPage fid now) ∈ L := by
    rcases hLc : L with _ | ⟨a, l⟩
    · exact absurd hLc hne
    · exact List.mem_cons_self _ _
  have hpageMem : ∀ c : String,
      ((L.find? fun p => p.id == c).getD (L.headD (freshPage fid now))) ∈ L := by
    intro c
    rcases hf : L.find? (fun p => p.id == c) with _ | q
    · rw [hf]
      exact hfirstMem
    · rw [hf]
      exact List.mem_of_find?_eq_some hf
  refine ⟨?_, ?_, ?_⟩
  · exact (scaleOrDflt_range _ (fun s hs => hload _ (hpageMem _) s hs)).1
  · exact (scaleOrDflt_range _ (fun s hs => hload _ (hpageMem _) s hs)).2
  · intro p hpmem s hs
    exact hload p hpmem s hs

/-- C8 counterexample: the claim says every scale mutation is clamped, so no
page load can take the scale outside `[0.2, 6]`; but the load effect restores
a stored page scale without clamping — a stored scale of `10` is taken as
is, leaving the live scale above 6. -/
theorem scale_clamp_counterexample :
    6 < (loadPages [⟨"p1", "Trang 1", [], some 10, some ⟨0, 0⟩, 0, 0⟩]
      none "f" 0).scale := by
  norm_num [loadPages, scaleOrDflt, List.find?, initialState]

/-- C8 amended: the wheel handler clamps every scale change to `[0.2, 6]`
unconditionally; page loads, switches and deletions restore stored scales
without clamping (zero or missing falls back to 1), so the scale stays in
`[0.2, 6]` under every sequence of user operations from a state whose stored
page scales are in range, and a load of well-formed (in-range) storage
establishes that invariant. -/
theorem scale_clamp_spec :
    (∀ (st : AppState) (ms : Point ℚ) (zf : ℚ),
      1/5 ≤ (handleWheel st ms zf).scale ∧ (handleWheel st ms zf).scale ≤ 6) ∧
    (∀ (ops : List Op) (st : AppState), ScaleInv st →
      ScaleInv (ops.foldl applyOp st)) ∧
    (∀ (stored : List PageData) (cur : Option String) (fid : String) (now : ℤ),
      (∀ p ∈ stored, ∀ s, p.scale = some s → 1/5 ≤ s ∧ s ≤ 6) →
      ScaleInv (loadPages stored cur fid now)) := by
  have hclamp : ∀ x : ℚ, 1/5 ≤ min 6 (max (1/5) x) ∧ min 6 (max (1/5) x) ≤ 6 :=
    fun x => ⟨le_min (by norm_num) (le_max_left _ _), min_le_left _ _⟩
  refine ⟨?_, ?_, loadPages_scaleInv⟩
  · intro st ms zf
    unfold handleWheel
    by_cases hif : min 6 (max (1/5) (st.scale * zf)) = st.scale
    · rw [if_pos hif]
      rw [← hif]
      exact hclamp _
    · rw [if_neg hif]
      exact hclamp _
  · intro ops
    induction ops with
    | nil => exact fun st h => h
    | cons op rest ih =>
      intro st h
      exact ih _ (applyOp_scaleInv st op h)

/-- Witness for C8 amended: a zoom far beyond the bounds followed by a pan
and an extreme zoom-out keeps the scale in range, starting from the initial
state. -/
theorem scale_clamp_spec_witness :
    ScaleInv (List.foldl applyOp initialState
      [Op.wheel ⟨0, 0⟩ 1000, Op.pan 3 4, Op.wheel ⟨5, 5⟩ (1/1000)]) := by
  apply scale_clamp_spec.2.1
  refine ⟨by norm_num [initialState], by norm_num [initialState], ?_⟩
  intro p hp
  simp [initialState] at hp

/-! ## Claim C5: endpoint snapping -/

theorem d2Screen_nonneg (scale : ℚ) (offset world ep : Point ℚ) :
    0 ≤ d2Screen scale offset world ep := by
  simp only [d2Screen]
  exact sum_mul_self_nonneg _ _

/-- One step of the snap loop preserves the loop invariant: a `none`
accumulator means every endpoint seen so far is out of tolerance, and a
`some` accumulator is a seen endpoint within tolerance of minimal squared
distance. -/
theorem snapStep_preserves (scale : ℚ) (offset world : Point ℚ)
    (best : Option (Point ℚ × ℚ)) (ep : Point ℚ) (seen : List (Point ℚ))
    (h1 : best = none → ∀ e ∈ seen, 144 < d2Screen scale offset world e)
    (h2 : ∀ q d, best = some (q, d) → q ∈ seen ∧
      d = d2Screen scale offset world q ∧ d ≤ 144 ∧
      ∀ e ∈ seen, d ≤ d2Screen scale offset world e) :
    ((snapStep scale offset world best ep) = none →
      ∀ e ∈ seen ++ [ep], 144 < d2Screen scale offset world e) ∧
    (∀ q d, (snapStep scale offset world best ep) = some (q, d) →
      q ∈ seen ++ [ep] ∧ d = d2Screen scale offset world q ∧ d ≤ 144 ∧
      ∀ e ∈ seen ++ [ep], d ≤ d2Screen scale offset world e) := by
  rcases best with _ | ⟨q0, d0⟩
  · by_cases hd : d2Screen scale offset world ep ≤ 144
    · have hstep : snapStep scale offset world none ep
          = some (ep, d2Screen scale offset world ep) := by
        simp [snapStep, hd]
      rw [hstep]
      constructor
      · intro hcontra
        exact absurd hcontra (by simp)
      · intro q d hqd
        obtain ⟨rfl, rfl⟩ := Prod.mk.inj (Option.some.inj hqd)
        refine ⟨List.mem_append_right _ (List.mem_singleton_self _), rfl, hd, ?_⟩
        intro e he
        rcases List.mem_append.mp he with he | he
        · exact le_trans hd (le_of_lt (h1 rfl e he))
        · rw [List.mem_singleton] at he
          subst he
          exact le_refl _
    · have hstep : snapStep scale offset world none ep = none := by
        simp [snapStep, hd]
      rw [hstep]
      constructor
      · intro _ e he
        rcases List.mem_append.mp he with he | he
        · exact h1 rfl e he
        · rw [List.mem_singleton] at he
          subst he
          exact not_le.mp hd
      · intro q d hqd
        exact absurd hqd (by simp)
  · obtain ⟨hq0mem, hq0eq, hq0le, hq0min⟩ := h2 q0 d0 rfl
    by_cases hd : d2Screen scale offset world ep ≤ 144
    · by_cases hlt : d2Screen scale offset world ep < d0
      · have hstep : snapStep scale offset world (some (q0, d0)) ep
            = some (ep, d2Screen scale offset world ep) := by
          simp [snapStep, hd, hlt]
        rw [hstep]
        refine ⟨by simp, ?_⟩
        intro q d hqd
        obtain ⟨rfl, rfl⟩ := Prod.mk.inj (Option.some.inj hqd)
        refine ⟨List.mem_append_right _ (List.mem_singleton_self _), rfl, hd, ?_⟩
        intro e he
        rcases List.mem_append.mp he with he | he
        · exact le_trans (le_of_lt hlt) (hq0min e he)
        · rw [List.mem_singleton] at he
          subst he
          exact le_refl _
      · have hstep : snapStep scale offset world (some (q0, d0)) ep
            = some (q0, d0) := by
          simp [snapStep, hlt]
        rw [hstep]
        refine ⟨by simp, ?_⟩
        intro q d hqd
        obtain ⟨rfl, rfl⟩ := Prod.mk.inj (Option.some.inj hqd)
        refine ⟨List.mem_append_left _ hq0mem, hq0eq, hq0le, ?_⟩
        intro e he
        rcases List.mem_append.mp he with he | he
        · exact hq0min e he
        · rw [List.mem_singleton] at he
          subst he
          exact le_of_not_lt hlt
    · have hstep : snapStep scale offset world (some (q0, d0)) ep
          = some (q0, d0) := by
        simp [snapStep, hd]
      rw [hstep]
      refine ⟨by simp, ?_⟩
      intro q d hqd
      obtain ⟨rfl, rfl⟩ := Prod.mk.inj (Option.some.inj hqd)
      refine ⟨List.mem_append_left _ hq0mem, hq0eq, hq0le, ?_⟩
      intro e he
      rcases List.mem_append.mp he with he | he
      · exact hq0min e he
      · rw [List.mem_singleton] at he
        subst he
        exact le_trans hq0le (le_of_lt (not_le.mp hd))

/-- The snap loop invariant, folded over the remaining endpoint list. -/
theorem snapFold_inv (scale : ℚ) (offset world : Point ℚ) :
    ∀ (rest : List (Point ℚ)) (best : Option (Point ℚ × ℚ)) (seen : List (Point ℚ)),
      (best = none → ∀ e ∈ seen, 144 < d2Screen scale offset world e) →
      (∀ q d, best = some (q, d) → q ∈ seen ∧
        d = d2Screen scale offset world q ∧ d ≤ 144 ∧
        ∀ e ∈ seen, d ≤ d2Screen scale offset world e) →
      ((rest.foldl (snapStep scale offset world) best) = none →
        ∀ e ∈ seen ++ rest, 144 < d2Screen scale offset world e) ∧
      (∀ q d, (rest.foldl (snapStep scale offset world) best) = some (q, d) →
        q ∈ seen ++ rest ∧ d = d2Screen scale offset world q ∧ d ≤ 144 ∧
        ∀ e ∈ seen ++ rest, d ≤ d2Screen scale offset world e) := by
  intro rest
  induction rest with
  | nil =>
    intro best seen h1 h2
    simpa using ⟨h1, h2⟩
  | cons ep rest ih =>
    intro best seen h1 h2
    have hstep := snapStep_preserves scale offset world best ep seen h1 h2
    have hrec := ih (snapStep scale offset world best ep) (seen ++ [ep])
      hstep.1 hstep.2
    have hrw : seen ++ ep :: rest = (seen ++ [ep]) ++ rest := by simp
    rw [List.foldl_cons, hrw]
    exact hrec

/-- C5: `snapToEndpoints` returns `none` exactly when every endpoint of every
shape (segment start/end, brush path first/last) is strictly farther than 12
screen pixels from the candidate; and when it returns an endpoint, that
endpoint is within 12 screen pixels and of minimal screen-space distance
among all endpoints. -/
theorem snapToEndpoints_spec (scale : ℚ) (offset : Point ℚ) (shapes : List Shape)
    (world : Point ℚ) :
    (snapToEndpoints scale offset shapes world = none ↔
      ∀ e ∈ getAllEndpoints shapes,
        (12 : ℝ) < Real.sqrt ((d2Screen scale offset world e : ℚ) : ℝ)) ∧
    (∀ q, snapToEndpoints scale offset shapes world = some q →
      q ∈ getAllEndpoints shapes ∧
      Real.sqrt ((d2Screen scale offset world q : ℚ) : ℝ) ≤ 12 ∧
      ∀ e ∈ getAllEndpoints shapes,
        Real.sqrt ((d2Screen scale offset world q : ℚ) : ℝ) ≤
          Real.sqrt ((d2Screen scale offset world e : ℚ) : ℝ)) := by
  have h12 : ((12 : ℚ) : ℝ) = (12 : ℝ) := by norm_num
  have hsqrt_lt : ∀ e : Point ℚ, 144 < d2Screen scale offset world e →
      (12 : ℝ) < Real.sqrt ((d2Screen scale offset world e : ℚ) : ℝ) := by
    intro e he
    rw [← h12]
    exact (cast_lt_sqrt_iff _ 12 (by norm_num)).mpr (by nlinarith)
  have hsqrt_lt_rev : ∀ e : Point ℚ,
      (12 : ℝ) < Real.sqrt ((d2Screen scale offset world e : ℚ) : ℝ) →
      144 < d2Screen scale offset world e := by
    intro e he
    rw [← h12] at he
    have := (cast_lt_sqrt_iff _ 12 (by norm_num)).mp he
    nlinarith
  have hinv := snapFold_inv scale offset world (getAllEndpoints shapes) none []
    (fun _ e he => absurd he (List.not_mem_nil e))
    (fun q d h => absurd h (by simp))
  simp only [List.nil_append] at hinv
  obtain ⟨hnone, hsome⟩ := hinv
  unfold snapToEndpoints
  constructor
  · constructor
    · intro h e he
      have hr : (getAllEndpoints shapes).foldl (snapStep scale offset world) none
          = none := Option.map_eq_none'.mp h
      exact hsqrt_lt e (hnone hr e he)
    · intro h
      rcases hr : (getAllEndpoints shapes).foldl (snapStep scale offset world) none
        with _ | ⟨q, d⟩
      · rfl
      · exfalso
        obtain ⟨hqmem, hqeq, hqle, -⟩ := hsome q d hr
        have h144 := hsqrt_lt_rev q (h q hqmem)
        rw [← hqeq] at h144
        exact absurd hqle (not_le.mpr h144)
  · intro q hq
    obtain ⟨a, hr, hfst⟩ := Option.map_eq_some'.mp hq
    obtain ⟨q1, d⟩ := a
    have hq1 : q1 = q := hfst
    subst hq1
    obtain ⟨hmem, heq, hle, hmin⟩ := hsome q1 d hr
    refine ⟨hmem, ?_, ?_⟩
    · rw [← h12]
      exact (sqrt_cast_le_iff _ 12 (by norm_num)).mpr (by nlinarith [hle, heq])
    · intro e he
      have hd := hmin e he
      rw [heq] at hd
      exact Real.sqrt_le_sqrt (by exact_mod_cast hd)

/-- Witness for C5: with one segment from (5,0) to (20,0) and candidate
(0,0) at scale 1, the endpoint (5,0) (5px away) is chosen, it is within
tolerance, and it is minimal among the endpoints. -/
theorem snapToEndpoints_spec_witness :
    snapToEndpoints 1 ⟨0, 0⟩ [Shape.segment ⟨5, 0⟩ ⟨20, 0⟩ .solid "c" 1] ⟨0, 0⟩
        = some ⟨5, 0⟩ ∧
    Real.sqrt ((d2Screen 1 ⟨0, 0⟩ ⟨0, 0⟩ ⟨5, 0⟩ : ℚ) : ℝ) ≤ 12 ∧
    ∀ e ∈ getAllEndpoints [Shape.segment ⟨5, 0⟩ ⟨20, 0⟩ .solid "c" 1],
      Real.sqrt ((d2Screen 1 ⟨0, 0⟩ ⟨0, 0⟩ ⟨5, 0⟩ : ℚ) : ℝ) ≤
        Real.sqrt ((d2Screen 1 ⟨0, 0⟩ ⟨0, 0⟩ e : ℚ) : ℝ) := by
  have hq : snapToEndpoints 1 ⟨0, 0⟩ [Shape.segment ⟨5, 0⟩ ⟨20, 0⟩ .solid "c" 1]
      ⟨0, 0⟩ = some ⟨5, 0⟩ := by
    norm_num [snapToEndpoints, getAllEndpoints, snapStep, d2Screen, worldToScreen]
  have h := (snapToEndpoints_spec 1 ⟨0, 0⟩
    [Shape.segment ⟨5, 0⟩ ⟨20, 0⟩ .solid "c" 1] ⟨0, 0⟩).2 ⟨5, 0⟩ hq
  exact ⟨hq, h.2.1, h.2.2⟩

/-! ## Claim C6: axis and diagonal snapping -/

/-- Characterisation of `near` in terms of integer turns: for angles with a
nonnegative shifted argument, `near a b` holds exactly when `a - b` is
within 10 of a multiple of 360. -/
theorem near_iff (a b : ℝ) (h : 0 ≤ a - b + 540) :
    near a b ↔ ∃ k : ℤ, |a - b - 360 * k| ≤ 10 := by
  unfold near jsMod
  have h360 : (0 : ℝ) < 360 := by norm_num
  have hq : 0 ≤ (a - b + 180 + 360) / 360 := div_nonneg (by linarith) h360.le
  rw [if_pos hq]
  constructor
  · intro hle
    refine ⟨⌊(a - b + 180 + 360) / 360⌋ - 1, ?_⟩
    convert hle using 2
    push_cast
    ring
  · rintro ⟨k, hk⟩
    obtain ⟨hk1, hk2⟩ := abs_le.mp hk
    have hfloor : ⌊(a - b + 180 + 360) / 360⌋ = k + 1 := by
      rw [Int.floor_eq_iff]
      constructor
      · rw [le_div_iff h360]
        push_cast
        linarith
      · rw [div_lt_iff h360]
        push_cast
        linarith
    rw [hfloor]
    rw [abs_le]
    push_cast
    constructor <;> linarith

/-- A real number at circular distance between 25 and 335 from zero is more
than 20 away from every multiple of 360. -/
theorem gap360 (d : ℝ) (m : ℤ) (h1 : 25 ≤ |d|) (h2 : |d| ≤ 335) :
    20 < |d - 360 * m| := by
  obtain ⟨ha, hb⟩ := abs_le.mp h2
  rcases lt_trichotomy m 0 with hm | hm | hm
  · have hm1 : (m : ℝ) ≤ -1 := by
      have hm0 : m ≤ -1 := by omega
      exact_mod_cast hm0
    have h25 : 25 ≤ d - 360 * m := by nlinarith
    have := le_abs_self (d - 360 * (m : ℝ))
    linarith
  · subst hm
    push_cast
    rw [mul_zero, sub_zero]
    linarith
  · have hm1 : (1 : ℝ) ≤ m := by exact_mod_cast hm
    have h25 : 25 ≤ 360 * (m : ℝ) - d := by nlinarith
    have := le_abs_self (360 * (m : ℝ) - d)
    rw [abs_sub_comm] at this
    linarith

/-- Two target angles at least 25° and at most 335° apart cannot both be
`near` the same angle. -/
theorem near_excl (a b c : ℝ) (hab : 0 ≤ a - b + 540) (hac : 0 ≤ a - c + 540)
    (hgap1 : 25 ≤ |b - c|) (hgap2 : |b - c| ≤ 335)
    (hnb : near a b) (hnc : near a c) : False := by
  obtain ⟨k, hk⟩ := (near_iff a b hab).mp hnb
  obtain ⟨j, hj⟩ := (near_iff a c hac).mp hnc
  have e1 : (b - c) - 360 * ((j : ℝ) - (k : ℝ))
      = (a - c - 360 * j) - (a - b - 360 * k) := by ring
  have hsum : |(b - c) - 360 * ((j : ℝ) - (k : ℝ))| ≤ 20 := by
    rw [e1]
    calc |(a - c - 360 * (j : ℝ)) - (a - b - 360 * (k : ℝ))|
        ≤ |a - c - 360 * (j : ℝ)| + |a - b - 360 * (k : ℝ)| := abs_sub _ _
      _ ≤ 10 + 10 := add_le_add hj hk
      _ = 20 := by norm_num
  have hgap := gap360 (b - c) (j - k) hgap1 hgap2
  rw [Int.cast_sub] at hgap
  linarith

/-- `atan2` has range `(-π, π]`. -/
theorem atan2_bounds (y x : ℝ) : -Real.pi < atan2 y x ∧ atan2 y x ≤ Real.pi := by
  have hpi := Real.pi_pos
  have harct1 := Real.arctan_lt_pi_div_two (y / x)
  have harct2 := Real.neg_pi_div_two_lt_arctan (y / x)
  unfold atan2
  split_ifs with h1 h2 h3 h4 h5
  · constructor <;> linarith
  · have hyx : y / x ≤ 0 := div_nonpos_iff.mpr (Or.inl ⟨h3, h2.le⟩)
    have hle : Real.arctan (y / x) ≤ 0 := by
      have := Real.arctan_strictMono.monotone hyx
      rwa [Real.arctan_zero] at this
    constructor <;> linarith
  · have hyx : 0 < y / x := div_pos_of_neg_of_neg (not_le.mp h3) h2
    have hgt : 0 < Real.arctan (y / x) := by
      have := Real.arctan_strictMono hyx
      rwa [Real.arctan_zero] at this
    constructor <;> linarith
  · constructor <;> linarith
  · constructor <;> linarith
  · constructor <;> linarith

/-- The degree angle of the snapping code lies in `(-180, 180]`. -/
theorem degOf_bounds (s e : Point ℝ) : -180 < degOf s e ∧ degOf s e ≤ 180 := by
  have hpi := Real.pi_pos
  obtain ⟨h1, h2⟩ := atan2_bounds (e.y - s.y) (e.x - s.x)
  unfold degOf
  constructor
  · rw [lt_div_iff hpi]
    nlinarith
  · rw [div_le_iff hpi]
    nlinarith

/-- When the candidate direction is within 10° of a diagonal, the candidate
vector cannot be zero (a zero vector has `deg = 0`, which is not near any
diagonal). -/
theorem hypot_ne_zero_of_near_diag (start stop : Point ℝ) (t : ℝ)
    (ht : t = 45 ∨ t = 135 ∨ t = -45 ∨ t = -135)
    (h : near (degOf start stop) t) :
    Real.sqrt ((stop.x - start.x) ^ 2 + (stop.y - start.y) ^ 2) ≠ 0 := by
  intro h0
  have hsum : (stop.x - start.x) ^ 2 + (stop.y - start.y) ^ 2 = 0 :=
    (Real.sqrt_eq_zero (by positivity)).mp h0
  have hx : stop.x - start.x = 0 := by
    nlinarith [sq_nonneg (stop.x - start.x), sq_nonneg (stop.y - start.y)]
  have hy : stop.y - start.y = 0 := by
    nlinarith [sq_nonneg (stop.x - start.x), sq_nonneg (stop.y - start.y)]
  have hdeg : degOf start stop = 0 := by
    unfold degOf atan2
    rw [hx, hy]
    norm_num
  rw [hdeg] at h
  obtain ⟨k, hk⟩ :=
    (near_iff 0 t (by rcases ht with rfl | rfl | rfl | rfl <;> norm_num)).mp h
  have hgap := gap360 (0 - t) k
    (by rcases ht with rfl | rfl | rfl | rfl <;> norm_num)
    (by rcases ht with rfl | rfl | rfl | rfl <;> norm_num)
  linarith

/-- C6: `snapAxisFromStart` returns `(end.x, start.y)` when the angle from
`start` to `end` is within 10° of 0°/180°; `(start.x, end.y)` within 10° of
±90°; the point on the exact diagonal through `start` at the candidate
vector's original length within 10° of ±45°/±135° (with `cos/sin` evaluated
to `±√2/2`, and the length being the true `hypot`); and otherwise the raw
candidate unchanged. -/
theorem snapAxisFromStart_spec (start stop : Point ℝ) :
    (near (degOf start stop) 0 ∨ near (degOf start stop) 180 →
      snapAxisFromStart start stop = ⟨stop.x, start.y⟩) ∧
    (near (degOf start stop) 90 ∨ near (degOf start stop) (-90) →
      snapAxisFromStart start stop = ⟨start.x, stop.y⟩) ∧
    (near (degOf start stop) 45 →
      snapAxisFromStart start stop =
        ⟨start.x + Real.sqrt 2 / 2 * lenOf start stop,
         start.y + Real.sqrt 2 / 2 * lenOf start stop⟩ ∧
      lenOf start stop =
        Real.sqrt ((stop.x - start.x) ^ 2 + (stop.y - start.y) ^ 2)) ∧
    (near (degOf start stop) 135 →
      snapAxisFromStart start stop =
        ⟨start.x - Real.sqrt 2 / 2 * lenOf start stop,
         start.y + Real.sqrt 2 / 2 * lenOf start stop⟩ ∧
      lenOf start stop =
        Real.sqrt ((stop.x - start.x) ^ 2 + (stop.y - start.y) ^ 2)) ∧
    (near (degOf start stop) (-45) →
      snapAxisFromStart start stop =
        ⟨start.x + Real.sqrt 2 / 2 * lenOf start stop,
         start.y - Real.sqrt 2 / 2 * lenOf start stop⟩ ∧
      lenOf start stop =
        Real.sqrt ((stop.x - start.x) ^ 2 + (stop.y - start.y) ^ 2)) ∧
    (near (degOf start stop) (-135) →
      snapAxisFromStart start stop =
        ⟨start.x - Real.sqrt 2 / 2 * lenOf start stop,
         start.y - Real.sqrt 2 / 2 * lenOf start stop⟩ ∧
      lenOf start stop =
        Real.sqrt ((stop.x - start.x) ^ 2 + (stop.y - start.y) ^ 2)) ∧
    (¬ near (degOf start stop) 0 → ¬ near (degOf start stop) 180 →
     ¬ near (degOf start stop) 90 → ¬ near (degOf start stop) (-90) →
     ¬ near (degOf start stop) 45 → ¬ near (degOf start stop) 135 →
     ¬ near (degOf start stop) (-45) → ¬ near (degOf start stop) (-135) →
      snapAxisFromStart start stop = stop) := by
  obtain ⟨hd1, hd2⟩ := degOf_bounds start stop
  have hsh : ∀ b : ℝ, |b| ≤ 180 → 0 ≤ degOf start stop - b + 540 := by
    intro b hb
    obtain ⟨hb1, hb2⟩ := abs_le.mp hb
    linarith
  have hexcl : ∀ b c : ℝ, |b| ≤ 180 → |c| ≤ 180 → 25 ≤ |b - c| →
      |b - c| ≤ 335 → near (degOf start stop) b →
      ¬ near (degOf start stop) c := by
    intro b c hb hc hg1 hg2 hnb hnc
    exact near_excl (degOf start stop) b c (hsh b hb) (hsh c hc) hg1 hg2 hnb hnc
  have hcos45 : Real.cos ((45 : ℝ) * Real.pi / 180) = Real.sqrt 2 / 2 := by
    rw [show (45 : ℝ) * Real.pi / 180 = Real.pi / 4 by ring, Real.cos_pi_div_four]
  have hsin45 : Real.sin ((45 : ℝ) * Real.pi / 180) = Real.sqrt 2 / 2 := by
    rw [show (45 : ℝ) * Real.pi / 180 = Real.pi / 4 by ring, Real.sin_pi_div_four]
  have hcos135 : Real.cos ((135 : ℝ) * Real.pi / 180) = -(Real.sqrt 2 / 2) := by
    rw [show (135 : ℝ) * Real.pi / 180 = Real.pi - Real.pi / 4 by ring,
      Real.cos_pi_sub, Real.cos_pi_div_four]
  have hsin135 : Real.sin ((135 : ℝ) * Real.pi / 180) = Real.sqrt 2 / 2 := by
    rw [show (135 : ℝ) * Real.pi / 180 = Real.pi - Real.pi / 4 by ring,
      Real.sin_pi_sub, Real.sin_pi_div_four]
  have hcosm45 : Real.cos ((-45 : ℝ) * Real.pi / 180) = Real.sqrt 2 / 2 := by
    rw [show (-45 : ℝ) * Real.pi / 180 = -(Real.pi / 4) by ring,
      Real.cos_neg, Real.cos_pi_div_four]
  have hsinm45 : Real.sin ((-45 : ℝ) * Real.pi / 180) = -(Real.sqrt 2 / 2) := by
    rw [show (-45 : ℝ) * Real.pi / 180 = -(Real.pi / 4) by ring,
      Real.sin_neg, Real.sin_pi_div_four]
  have hcosm135 : Real.cos ((-135 : ℝ) * Real.pi / 180) = -(Real.sqrt 2 / 2) := by
    rw [show (-135 : ℝ) * Real.pi / 180 = -(Real.pi - Real.pi / 4) by ring,
      Real.cos_neg, Real.cos_pi_sub, Real.cos_pi_div_four]
  have hsinm135 : Real.sin ((-135 : ℝ) * Real.pi / 180) = -(Real.sqrt 2 / 2) := by
    rw [show (-135 : ℝ) * Real.pi / 180 = -(Real.pi - Real.pi / 4) by ring,
      Real.sin_neg, Real.sin_pi_sub, Real.sin_pi_div_four]
  refine ⟨?_, ?_, ?_, ?_, ?_, ?_, ?_⟩
  · intro h
    unfold snapAxisFromStart
    rw [if_pos h]
  · intro h
    have hn0 : ¬ near (degOf start stop) 0 := by
      rcases h with h | h
      · exact hexcl 90 0 (by norm_num) (by norm_num) (by norm_num) (by norm_num) h
      · exact hexcl (-90) 0 (by norm_num) (by norm_num) (by norm_num) (by norm_num) h
    have hn180 : ¬ near (degOf start stop) 180 := by
      rcases h with h | h
      · exact hexcl 90 180 (by norm_num) (by norm_num) (by norm_num) (by norm_num) h
      · exact hexcl (-90) 180 (by norm_num) (by norm_num) (by norm_num) (by norm_num) h
    unfold snapAxisFromStart
    rw [if_neg (by tauto), if_pos h]
  · intro h
    have hn0 : ¬ near (degOf start stop) 0 :=
      hexcl 45 0 (by norm_num) (by norm_num) (by norm_num) (by norm_num) h
    have hn180 : ¬ near (degOf start stop) 180 :=
      hexcl 45 180 (by norm_num) (by norm_num) (by norm_num) (by norm_num) h
    have hn90 : ¬ near (degOf start stop) 90 :=
      hexcl 45 90 (by norm_num) (by norm_num) (by norm_num) (by norm_num) h
    have hnm90 : ¬ near (degOf start stop) (-90) :=
      hexcl 45 (-90) (by norm_num) (by norm_num) (by norm_num) (by norm_num) h
    have hlen : lenOf start stop
        = Real.sqrt ((stop.x - start.x) ^ 2 + (stop.y - start.y) ^ 2) := by
      unfold lenOf
      rw [if_neg (hypot_ne_zero_of_near_diag start stop 45 (by norm_num) h)]
    refine ⟨?_, hlen⟩
    unfold snapAxisFromStart
    rw [if_neg (by tauto), if_neg (by tauto), if_pos h]
    unfold diagPoint
    rw [hcos45, hsin45]
  · intro h
    have hn0 : ¬ near (degOf start stop) 0 :=
      hexcl 135 0 (by norm_num) (by norm_num) (by norm_num) (by norm_num) h
    have hn180 : ¬ near (degOf start stop) 180 :=
      hexcl 135 180 (by norm_num) (by norm_num) (by norm_num) (by norm_num) h
    have hn90 : ¬ near (degOf start stop) 90 :=
      hexcl 135 90 (by norm_num) (by norm_num) (by norm_num) (by norm_num) h
    have hnm90 : ¬ near (degOf start stop) (-90) :=
      hexcl 135 (-90) (by norm_num) (by norm_num) (by norm_num) (by norm_num) h
    have hn45 : ¬ near (degOf start stop) 45 :=
      hexcl 135 45 (by norm_num) (by norm_num) (by norm_num) (by norm_num) h
    have hlen : lenOf start stop
        = Real.sqrt ((stop.x - start.x) ^ 2 + (stop.y - start.y) ^ 2) := by
      unfold lenOf
      rw [if_neg (hypot_ne_zero_of_near_diag start stop 135 (by norm_num) h)]
    refine ⟨?_, hlen⟩
    unfold snapAxisFromStart
    rw [if_neg (by tauto), if_neg (by tauto), if_neg hn45, if_pos h]
    unfold diagPoint
    rw [hcos135, hsin135]
    ext
    · show start.x + -(Real.sqrt 2 / 2) * lenOf start stop = _
      ring
    · rfl
  · intro h
    have hn0 : ¬ near (degOf start stop) 0 :=
      hexcl (-45) 0 (by norm_num) (by norm_num) (by norm_num) (by norm_num) h
    have hn180 : ¬ near (degOf start stop) 180 :=
      hexcl (-45) 180 (by norm_num) (by norm_num) (by norm_num) (by norm_num) h
    have hn90 : ¬ near (degOf start stop) 90 :=
      hexcl (-45) 90 (by norm_num) (by norm_num) (by norm_num) (by norm_num) h
    have hnm90 : ¬ near (degOf start stop) (-90) :=
      hexcl (-45) (-90) (by norm_num) (by norm_num) (by norm_num) (by norm_num) h
    have hn45 : ¬ near (degOf start stop) 45 :=
      hexcl (-45) 45 (by norm_num) (by norm_num) (by norm_num) (by norm_num) h
    have hn135 : ¬ near (degOf start stop) 135 :=
      hexcl (-45) 135 (by norm_num) (by norm_num) (by norm_num) (by norm_num) h
    have hlen : lenOf start stop
        = Real.sqrt ((stop.x - start.x) ^ 2 + (stop.y - start.y) ^ 2) := by
      unfold lenOf
      rw [if_neg (hypot_ne_zero_of_near_diag start stop (-45) (by norm_num) h)]
    refine ⟨?_, hlen⟩
    unfold snapAxisFromStart
    rw [if_neg (by tauto), if_neg (by tauto), if_neg hn45, if_neg hn135, if_pos h]
    unfold diagPoint
    rw [hcosm45, hsinm45]
    ext
    · rfl
    · show start.y + -(Real.sqrt 2 / 2) * lenOf start stop = _
      ring
  · intro h
    have hn0 : ¬ near (degOf start stop) 0 :=
      hexcl (-135) 0 (by norm_num) (by norm_num) (by norm_num) (by norm_num) h
    have hn180 : ¬ near (degOf start stop) 180 :=
      hexcl (-135) 180 (by norm_num) (by norm_num) (by norm_num) (by norm_num) h
    have hn90 : ¬ near (degOf start stop) 90 :=
      hexcl (-135) 90 (by norm_num) (by norm_num) (by norm_num) (by norm_num) h
    have hnm90 : ¬ near (degOf start stop) (-90) :=
      hexcl (-135) (-90) (by norm_num) (by norm_num) (by norm_num) (by norm_num) h
    have hn45 : ¬ near (degOf start stop) 45 :=
      hexcl (-135) 45 (by norm_num) (by norm_num) (by norm_num) (by norm_num) h
    have hn135 : ¬ near (degOf start stop) 135 :=
      hexcl (-135) 135 (by norm_num) (by norm_num) (by norm_num) (by norm_num) h
    have hnm45 : ¬ near (degOf start stop) (-45) :=
      hexcl (-135) (-45) (by norm_num) (by norm_num) (by norm_num) (by norm_num) h
    have hlen : lenOf start stop
        = Real.sqrt ((stop.x - start.x) ^ 2 + (stop.y - start.y) ^ 2) := by
      unfold lenOf
      rw [if_neg (hypot_ne_zero_of_near_diag start stop (-135) (by norm_num) h)]
    refine ⟨?_, hlen⟩
    unfold snapAxisFromStart
    rw [if_neg (by tauto), if_neg (by tauto), if_neg hn45, if_neg hn135,
      if_neg hnm45, if_pos h]
    unfold diagPoint
    rw [hcosm135, hsinm135]
    ext
    · show start.x + -(Real.sqrt 2 / 2) * lenOf start stop = _
      ring
    · show start.y + -(Real.sqrt 2 / 2) * lenOf start stop = _
      ring
  · intro hn0 hn180 hn90 hnm90 hn45 hn135 hnm45 hnm135
    unfold snapAxisFromStart
    rw [if_neg (by tauto), if_neg (by tauto), if_neg hn45, if_neg hn135,
      if_neg hnm45, if_neg hnm135]

/-- Witness for C6: with start (0,0) and end (1,0) the angle is exactly 0°,
which is within 10° of horizontal, and the snap keeps (1, 0). -/
theorem snapAxisFromStart_spec_witness :
    near (degOf (⟨0, 0⟩ : Point ℝ) ⟨1, 0⟩) 0 ∧
    snapAxisFromStart (⟨0, 0⟩ : Point ℝ) ⟨1, 0⟩ = ⟨1, 0⟩ := by
  have hdeg : degOf (⟨0, 0⟩ : Point ℝ) ⟨1, 0⟩ = 0 := by
    unfold degOf atan2
    norm_num [Real.arctan_zero]
  have hnear : near (degOf (⟨0, 0⟩ : Point ℝ) ⟨1, 0⟩) 0 := by
    rw [hdeg]
    unfold near jsMod
    norm_num
  exact ⟨hnear, (snapAxisFromStart_spec ⟨0, 0⟩ ⟨1, 0⟩).1 (Or.inl hnear)⟩
